import Mathlib

/-!
Verification of the semantic medicine-recommendation engine of the
AIAssistantPlatform repository.

The repository ships the React client (`cleint/src/app/page.tsx`,
`cleint/src/components/SymptomForm.tsx`, `MedicineCard.tsx`) and the
backend's README; the backend engine itself (the FastAPI service with the
embedding model, embedding cache, similarity index and `recommend`
pipeline) is not part of the checked-in sources.  The engine is therefore
modelled here from the specification (definitions marked
`Modelled from the spec:`); the client-side `enrich` function is embedded
directly from `page.tsx`.

Floating-point arithmetic of the original is modelled over `ℚ`; the only
operation that has no exact rational counterpart, the square root used to
normalize the dot product, is abstracted as an explicit function
parameter.
-/

namespace MedEngine

/-- Modelled from the spec: one immutable catalog entry (§3
`MedicineRecord`); the backend that defines it is not in the repository. -/
structure MedicineRecord where
  drug_name : String
  medical_condition : String
  side_effects : String
  rating : Option ℚ := none
  drug_link : Option String := none
deriving Repr, DecidableEq

/-- Modelled from the spec: tri-state region availability (§3); the client
renders it from `true` / `false` / `null`. -/
inductive Availability where
  | available
  | unavailable
  | unknown
deriving Repr, DecidableEq

/-- Modelled from the spec: per-query scored result (§3 `ScoredCandidate`). -/
structure ScoredCandidate where
  record : MedicineRecord
  confidence_score : ℚ
  allergy_risk : ℚ
  available_in_region : Availability
deriving Repr, DecidableEq

/-- Modelled from the spec: error taxonomy visible to the caller (§7);
`CacheCorruption` is recovered internally and never surfaced. -/
inductive EngineError where
  | InvalidInput
  | ModelUnavailable
deriving Repr, DecidableEq

/-- Dot product of two vectors (componentwise, stopping at the shorter). -/
def dot : List ℚ → List ℚ → ℚ
  | a :: as, b :: bs => a * b + dot as bs
  | _, _ => 0

/-- Squared Euclidean norm. -/
def sqNorm (v : List ℚ) : ℚ := dot v v

/-- Modelled from the spec (§4.3): cosine similarity as the normalized dot
product, guarded so that a zero-norm vector yields similarity `0` rather
than a division by zero; `sqrt` abstracts the floating-point square root of
the missing backend. -/
def cosineSim (sqrt : ℚ → ℚ) (a b : List ℚ) : ℚ :=
  if sqNorm a = 0 ∨ sqNorm b = 0 then 0
  else dot a b / (sqrt (sqNorm a) * sqrt (sqNorm b))

/-- A string that is empty or consists of whitespace only (§4.1's
"empty/whitespace-only text"). -/
def isBlank (s : String) : Bool := s.data.all Char.isWhitespace

/-- Modelled from the spec (§4.1): the embedding-model adapter contract
`embed(text)`.  The pretrained model itself is external data, abstracted as
the deterministic function `model`; empty or whitespace-only text is
rejected with `InvalidInput` instead of being embedded. -/
def embed (model : String → List ℚ) (text : String) :
    Except EngineError (List ℚ) :=
  if isBlank text then .error .InvalidInput else .ok (model text)

/-- Modelled from the spec (§6): one persisted cache entry, a model
identifier together with the two vectors. -/
structure CacheEntry where
  model_id : String
  condition_vector : List ℚ
  side_effect_vector : List ℚ
deriving Repr, DecidableEq

/-- Modelled from the spec (§2, §6): the persisted embedding cache, a
mapping from fingerprint to entry. -/
abbrev Cache := List (String × CacheEntry)

/-- Modelled from the spec (§3): stable fingerprint over
`drug_name + medical_condition + side_effects + model_identifier`. -/
def fingerprint (model_id : String) (r : MedicineRecord) : String :=
  r.drug_name ++ "\x00" ++ r.medical_condition ++ "\x00" ++
    r.side_effects ++ "\x00" ++ model_id

/-- Find the entry stored under a fingerprint, if any. -/
def lookupEntry (c : Cache) (k : String) : Option CacheEntry :=
  (c.find? (fun p => p.1 = k)).map Prod.snd

/-- Result of one `get_or_compute` call: the two vectors, the cache after
the call, and whether model inference was performed. -/
structure FetchResult where
  condition_vector : List ℚ
  side_effect_vector : List ℚ
  cache : Cache
  inferred : Bool
deriving Repr, DecidableEq

/-- Modelled from the spec (§4.2): `get_or_compute(record)`.  A stored
entry is used only when its recorded model identifier matches the
currently loaded model; otherwise fresh vectors are computed by the
adapter and written back under the fingerprint. -/
def get_or_compute (model : String → List ℚ) (model_id : String)
    (c : Cache) (r : MedicineRecord) : FetchResult :=
  let k := fingerprint model_id r
  match lookupEntry c k with
  | some e =>
    if e.model_id = model_id then
      ⟨e.condition_vector, e.side_effect_vector, c, false⟩
    else
      let cv := model r.medical_condition
      let sv := model r.side_effects
      ⟨cv, sv, (k, ⟨model_id, cv, sv⟩) :: c.filter (fun p => ¬ p.1 = k), true⟩
  | none =>
      let cv := model r.medical_condition
      let sv := model r.side_effects
      ⟨cv, sv, (k, ⟨model_id, cv, sv⟩) :: c, true⟩

/-- Modelled from the spec (§2, §5, §9): the engine with its injected
collaborators — the deterministic embedding model, the abstracted square
root, the read-only catalog, the region resolver's data (known region
codes and the externally supplied tri-state), and the tunable allergy
exclusion threshold. -/
structure Engine where
  model : String → List ℚ
  sqrt : ℚ → ℚ
  catalog : List MedicineRecord
  knownRegions : List String
  resolveAvail : String → MedicineRecord → Availability
  allergyThreshold : ℚ

/-- Internal per-query candidate: catalog position, record, side-effect
vector, confidence score and allergy risk. -/
structure Cand where
  idx : ℕ
  record : MedicineRecord
  svec : List ℚ
  conf : ℚ
  risk : ℚ
deriving Repr, DecidableEq

/-- Pair each list element with its position, starting from `n`. -/
def withIdx (n : ℕ) : List MedicineRecord → List (ℕ × MedicineRecord)
  | [] => []
  | r :: rs => (n, r) :: withIdx (n + 1) rs

/-- Modelled from the spec (§3, §4.3): the similarity index is built from
the catalog; records with empty condition text are excluded (they cannot
be embedded meaningfully); positions are kept for the stable tie-break. -/
def Engine.indexed (E : Engine) : List (ℕ × MedicineRecord) :=
  (withIdx 0 E.catalog).filter (fun p => ¬ p.2.medical_condition = "")

/-- Modelled from the spec (§4.3, §4.4 step 3): score every indexed record
against the query vector in the condition-vector space; `allergy_risk`
starts at `0` (§4.4 step 6). -/
def Engine.scoreConf (E : Engine) (qv : List ℚ) : List Cand :=
  E.indexed.map (fun p =>
    { idx := p.1, record := p.2, svec := E.model p.2.side_effects,
      conf := cosineSim E.sqrt qv (E.model p.2.medical_condition),
      risk := 0 })

/-- Modelled from the spec (§4.3): `score_all(query_vector)` over a list of
(record, vector) pairs — defined for every query vector and every indexed
record. -/
def score_all (sqrt : ℚ → ℚ) (qv : List ℚ)
    (index : List (MedicineRecord × List ℚ)) : List (MedicineRecord × ℚ) :=
  index.map (fun p => (p.1, cosineSim sqrt qv p.2))

/-- Ranking order of the spec (§4.4 steps 5 and 7): higher confidence
first; on equal confidence lower allergy risk first; on a full tie the
smaller catalog position first (the stable sort). -/
def CandLE (a b : Cand) : Prop :=
  b.conf < a.conf ∨ (a.conf = b.conf ∧
    (a.risk < b.risk ∨ (a.risk = b.risk ∧ a.idx ≤ b.idx)))

instance : DecidableRel CandLE := fun a b => by
  unfold CandLE; infer_instance

instance : IsTotal Cand CandLE where
  total a b := by
    unfold CandLE
    rcases lt_trichotomy b.conf a.conf with hc | hc | hc
    · exact Or.inl (Or.inl hc)
    · rcases lt_trichotomy a.risk b.risk with hr | hr | hr
      · exact Or.inl (Or.inr ⟨hc.symm, Or.inl hr⟩)
      · rcases Nat.le_total a.idx b.idx with hi | hi
        · exact Or.inl (Or.inr ⟨hc.symm, Or.inr ⟨hr, hi⟩⟩)
        · exact Or.inr (Or.inr ⟨hc, Or.inr ⟨hr.symm, hi⟩⟩)
      · exact Or.inr (Or.inr ⟨hc, Or.inl hr⟩)
    · exact Or.inr (Or.inl hc)

instance : IsTrans Cand CandLE where
  trans a b c hab hbc := by
    unfold CandLE at *
    rcases hab with hab | ⟨eab, hab⟩ <;> rcases hbc with hbc | ⟨ebc, hbc⟩
    · exact Or.inl (hbc.trans hab)
    · exact Or.inl (lt_of_eq_of_lt ebc.symm hab)
    · exact Or.inl (lt_of_lt_of_eq hbc eab.symm)
    · refine Or.inr ⟨eab.trans ebc, ?_⟩
      rcases hab with hab | ⟨rab, iab⟩ <;> rcases hbc with hbc | ⟨rbc, ibc⟩
      · exact Or.inl (hab.trans hbc)
      · exact Or.inl (lt_of_lt_of_eq hab rbc)
      · exact Or.inl (lt_of_eq_of_lt rab hbc)
      · exact Or.inr ⟨rab.trans rbc, iab.trans ibc⟩

/-- Modelled from the spec (§4.4 steps 2–4): embed the query once, score
every indexed record, and drop any record whose confidence is below
`min_confidence`. -/
def Engine.surviving (E : Engine) (symptom_text : String)
    (min_confidence : ℚ) : List Cand :=
  (E.scoreConf (E.model symptom_text)).filter (fun c => min_confidence ≤ c.conf)

/-- Modelled from the spec (§4.4 steps 5–6): with a non-empty
`allergy_text`, embed it once, score each surviving record in the
side-effect space and drop records whose risk exceeds the exclusion
threshold; with an empty `allergy_text` no allergy computation happens and
every risk stays `0`. -/
def Engine.kept (E : Engine) (symptom_text allergy_text : String)
    (min_confidence : ℚ) : List Cand :=
  if isBlank allergy_text then E.surviving symptom_text min_confidence
  else
    ((E.surviving symptom_text min_confidence).map
        (fun c => { c with risk := cosineSim E.sqrt (E.model allergy_text) c.svec })).filter
      (fun c => c.risk ≤ E.allergyThreshold)

/-- Modelled from the spec (§4.4 step 7): sort the surviving candidates.
Because the order carries the catalog position as its last tie-break, the
result of the spec's stable sort by (confidence descending, risk
ascending) coincides with sorting by `CandLE`. -/
def Engine.ranked (E : Engine) (symptom_text allergy_text : String)
    (min_confidence : ℚ) : List Cand :=
  (E.kept symptom_text allergy_text min_confidence).insertionSort CandLE

/-- Modelled from the spec (§4.4 step 8): annotate availability; an empty
or unrecognized `region_code` yields the `unknown` tri-state, a recognized
one passes the external resolver's tri-state through. -/
def Engine.annotate (E : Engine) (region_code : String) (c : Cand) :
    ScoredCandidate :=
  { record := c.record, confidence_score := c.conf, allergy_risk := c.risk,
    available_in_region :=
      if region_code = "" ∨ ¬ region_code ∈ E.knownRegions then .unknown
      else E.resolveAvail region_code c.record }

/-- Modelled from the spec (§4.4): the public operation
`recommend(symptom_text, allergy_text, region_code, top_k, min_confidence)`.
Step 1 validates the inputs (`InvalidInput` on an empty symptom, a
non-positive `top_k`, or `min_confidence` outside `[0,1]`); the pipeline
then scores, filters, sorts, truncates to `top_k` and annotates. -/
def Engine.recommend (E : Engine) (symptom_text allergy_text region_code : String)
    (top_k : ℤ) (min_confidence : ℚ) :
    Except EngineError (List ScoredCandidate) :=
  if isBlank symptom_text then .error .InvalidInput
  else if ¬ 0 < top_k then .error .InvalidInput
  else if ¬ (0 ≤ min_confidence ∧ min_confidence ≤ 1) then .error .InvalidInput
  else .ok (((E.ranked symptom_text allergy_text min_confidence).take
      top_k.toNat).map (E.annotate region_code))

/-- Follows the spec's words for a call "with no allergy filtering at all"
(§4.4 steps 5–6 skipped entirely): every surviving candidate keeps
`allergy_risk = 0` and no allergy computation is performed.  Used to
compare against `recommend` with an empty allergy string. -/
def Engine.recommendNoAllergy (E : Engine) (symptom_text region_code : String)
    (top_k : ℤ) (min_confidence : ℚ) :
    Except EngineError (List ScoredCandidate) :=
  if isBlank symptom_text then .error .InvalidInput
  else if ¬ 0 < top_k then .error .InvalidInput
  else if ¬ (0 ≤ min_confidence ∧ min_confidence ≤ 1) then .error .InvalidInput
  else
    .ok ((((E.surviving symptom_text min_confidence).insertionSort CandLE).take
        top_k.toNat).map (E.annotate region_code))

/-- A concrete catalog record used to exercise the engine on a closed
input. -/
def witRecord : MedicineRecord :=
  { drug_name := "ibuprofen", medical_condition := "headache",
    side_effects := "nausea" }

/-- A concrete engine instance (constant unit model, identity square root,
one-record catalog) used to exercise the pipeline on closed inputs. -/
def witEngine : Engine :=
  { model := fun _ => [1], sqrt := fun q => q, catalog := [witRecord],
    knownRegions := ["EU"], resolveAvail := fun _ _ => .available,
    allergyThreshold := 1 / 2 }

/-- The candidate `witEngine` produces for `witRecord` on the query
"headache" with no allergy text and no region. -/
def witResult : ScoredCandidate :=
  { record := witRecord, confidence_score := 1, allergy_risk := 0,
    available_in_region := .unknown }

end MedEngine

namespace Client

/-- One result object as the client receives it from the engine
(field list per the backend README's response example together with
`available_in_region`, which `page.tsx` and `MedicineCard.tsx` read as
`boolean | null`). -/
structure EngineResult where
  drug_name : String
  medical_condition : String
  side_effects : String
  rating : Option String
  drug_link : Option String
  confidence_score : ℚ
  allergy_risk : ℚ
  available_in_region : Option Bool
deriving Repr, DecidableEq

/-- The record after `enrich` in `page.tsx`: the spread copy of the engine
fields plus the presentation fields the client fabricates.  The source
calls the last field `match`, a reserved word here. -/
structure EnrichedResult where
  drug_name : String
  medical_condition : String
  side_effects : String
  rating : Option String
  drug_link : Option String
  confidence_score : ℚ
  allergy_risk : ℚ
  available_in_region : Option Bool
  price : String
  reviews : ℕ
  prescription : Bool
  generic : Option String
  usage : String
  matchLabel : Option String
deriving Repr, DecidableEq

/-- Render a number of cents with two decimal digits, as JavaScript's
`toFixed(2)` does on the exactly representable values `20 + i * 4.5`. -/
def toFixed2 (cents : ℕ) : String :=
  toString (cents / 100) ++ "." ++
    (if cents % 100 < 10 then "0" else "") ++ toString (cents % 100)

/-- `enrich` from `page.tsx` lines 59–68: spread the engine record, then
add fabricated `price`, `reviews`, `prescription` and derived `generic`,
`usage`, `match`.  JavaScript truthiness makes `generic` absent exactly on
an empty `drug_name` and `match` absent exactly on a zero
`confidence_score`; `Math.round` is floor of the value plus one half, and
`20 + i * 4.5` is held exactly, as `2000 + 450 * i` cents. -/
def enrich (med : EngineResult) (i : ℕ) : EnrichedResult :=
  { drug_name := med.drug_name
    medical_condition := med.medical_condition
    side_effects := med.side_effects
    rating := med.rating
    drug_link := med.drug_link
    confidence_score := med.confidence_score
    allergy_risk := med.allergy_risk
    available_in_region := med.available_in_region
    price := toFixed2 (2000 + 450 * i)
    reviews := 100 + 17 * i
    prescription := true
    generic :=
      if med.drug_name = "" then none
      else some ("Generic: " ++ med.drug_name)
    usage := med.medical_condition
    matchLabel :=
      if med.confidence_score = 0 then none
      else some (toString ⌊med.confidence_score * 100 + 1 / 2⌋ ++ "%") }

end Client

namespace MedEngine

theorem withIdx_mem {n : ℕ} {l : List MedicineRecord} {p : ℕ × MedicineRecord}
    (h : p ∈ withIdx n l) : n ≤ p.1 ∧ l.get? (p.1 - n) = some p.2 := by
  induction l generalizing n with
  | nil => simp [withIdx] at h
  | cons r rs ih =>
    simp only [withIdx, List.mem_cons] at h
    rcases h with h | h
    · subst h; simp
    · obtain ⟨h1, h2⟩ := ih h
      refine ⟨by omega, ?_⟩
      have he : p.1 - n = (p.1 - (n + 1)) + 1 := by omega
      rw [he]
      simpa using h2

theorem withIdx_pairwise (n : ℕ) (l : List MedicineRecord) :
    (withIdx n l).Pairwise (fun a b => a.1 < b.1) := by
  induction l generalizing n with
  | nil => exact List.Pairwise.nil
  | cons r rs ih =>
    refine List.Pairwise.cons ?_ (ih (n + 1))
    intro q hq
    have h1 := (withIdx_mem hq).1
    show n < q.1
    omega

theorem indexed_record (E : Engine) {p : ℕ × MedicineRecord}
    (h : p ∈ E.indexed) : E.catalog.get? p.1 = some p.2 := by
  have h' := (List.mem_filter.mp h).1
  simpa using (withIdx_mem h').2

theorem indexed_pairwise (E : Engine) :
    E.indexed.Pairwise (fun a b => a.1 < b.1) :=
  (withIdx_pairwise 0 E.catalog).filter _

theorem mem_scoreConf {E : Engine} {qv : List ℚ} {c : Cand}
    (h : c ∈ E.scoreConf qv) :
    c.risk = 0 ∧ E.catalog.get? c.idx = some c.record := by
  rcases List.mem_map.mp h with ⟨p, hp, rfl⟩
  exact ⟨rfl, indexed_record E hp⟩

theorem scoreConf_pairwise (E : Engine) (qv : List ℚ) :
    (E.scoreConf qv).Pairwise (fun a b => a.idx < b.idx) := by
  unfold Engine.scoreConf
  rw [List.pairwise_map]
  exact indexed_pairwise E

theorem mem_surviving {E : Engine} {s : String} {mc : ℚ} {c : Cand}
    (h : c ∈ E.surviving s mc) :
    mc ≤ c.conf ∧ c.risk = 0 ∧ E.catalog.get? c.idx = some c.record := by
  obtain ⟨h1, h2⟩ := List.mem_filter.mp h
  obtain ⟨h3, h4⟩ := mem_scoreConf h1
  exact ⟨by simpa using h2, h3, h4⟩

theorem surviving_pairwise (E : Engine) (s : String) (mc : ℚ) :
    (E.surviving s mc).Pairwise (fun a b => a.idx < b.idx) :=
  (scoreConf_pairwise E (E.model s)).filter _

theorem mem_kept {E : Engine} {s a : String} {mc : ℚ} {c : Cand}
    (h : c ∈ E.kept s a mc) :
    mc ≤ c.conf ∧ E.catalog.get? c.idx = some c.record ∧
      (isBlank a = true → c.risk = 0) ∧
      (isBlank a = false → c.risk ≤ E.allergyThreshold) := by
  unfold Engine.kept at h
  by_cases hb : isBlank a
  · rw [if_pos hb] at h
    obtain ⟨h1, h2, h3⟩ := mem_surviving h
    exact ⟨h1, h3, fun _ => h2, fun hf => by rw [hb] at hf; cases hf⟩
  · rw [if_neg hb] at h
    obtain ⟨h1, h2⟩ := List.mem_filter.mp h
    rcases List.mem_map.mp h1 with ⟨c₀, hc₀, rfl⟩
    obtain ⟨h3, _, h4⟩ := mem_surviving hc₀
    refine ⟨h3, h4, fun ht => ?_, fun _ => by simpa using h2⟩
    rw [ht] at hb; cases hb rfl

theorem kept_pairwise (E : Engine) (s a : String) (mc : ℚ) :
    (E.kept s a mc).Pairwise (fun x y => x.idx < y.idx) := by
  unfold Engine.kept
  by_cases hb : isBlank a
  · rw [if_pos hb]; exact surviving_pairwise E s mc
  · rw [if_neg hb]
    refine List.Pairwise.filter _ ?_
    rw [List.pairwise_map]
    exact surviving_pairwise E s mc

theorem mem_ranked {E : Engine} {s a : String} {mc : ℚ} {c : Cand}
    (h : c ∈ E.ranked s a mc) :
    mc ≤ c.conf ∧ E.catalog.get? c.idx = some c.record ∧
      (isBlank a = true → c.risk = 0) ∧
      (isBlank a = false → c.risk ≤ E.allergyThreshold) :=
  mem_kept ((List.mem_insertionSort CandLE).mp h)

theorem ranked_sorted (E : Engine) (s a : String) (mc : ℚ) :
    (E.ranked s a mc).Pairwise CandLE :=
  List.sorted_insertionSort CandLE (E.kept s a mc)

theorem ranked_idx_distinct (E : Engine) (s a : String) (mc : ℚ) :
    (E.ranked s a mc).Pairwise (fun x y => ¬ x.idx = y.idx) := by
  have hperm := List.perm_insertionSort CandLE (E.kept s a mc)
  unfold Engine.ranked
  rw [List.Perm.pairwise_iff (fun hxy h => hxy h.symm) hperm]
  exact (kept_pairwise E s a mc).imp (fun hlt => by omega)

theorem recommend_ok_elim {E : Engine} {s a r : String} {k : ℤ} {mc : ℚ}
    {res : List ScoredCandidate} (h : E.recommend s a r k mc = .ok res) :
    res = ((E.ranked s a mc).take k.toNat).map (E.annotate r) := by
  unfold Engine.recommend at h
  split_ifs at h
  all_goals first
    | exact Except.noConfusion h
    | exact (Except.ok.inj h).symm

theorem wit_recommend_eq :
    witEngine.recommend "headache" "" "" 1 0 = .ok [witResult] := by
  have hb : isBlank "headache" = false := by decide
  have hb2 : isBlank "" = true := by decide
  unfold Engine.recommend Engine.ranked Engine.kept Engine.surviving
    Engine.scoreConf Engine.indexed Engine.annotate
  rw [hb]
  norm_num [witEngine, witRecord, witResult, withIdx, cosineSim, sqNorm, dot,
    hb2, List.insertionSort, List.orderedInsert, List.filter]

/-- C1: for every valid call to `recommend`, every candidate of the
returned sequence has `confidence_score ≥ min_confidence` — records
scoring below the threshold are dropped before ranking. -/
theorem recommend_confidence_ge_min (E : Engine) (s a r : String) (k : ℤ)
    (mc : ℚ) (res : List ScoredCandidate)
    (h : E.recommend s a r k mc = .ok res)
    (x : ScoredCandidate) (hx : x ∈ res) :
    mc ≤ x.confidence_score := by
  rw [recommend_ok_elim h] at hx
  rcases List.mem_map.mp hx with ⟨c, hc, rfl⟩
  exact (mem_ranked (List.mem_of_mem_take hc)).1

/-- Closed instance of C1's theorem: `witEngine` on query "headache" with
threshold `0` returns the candidate `witResult`, whose confidence clears
the threshold. -/
theorem recommend_confidence_ge_min_witness :
    (0 : ℚ) ≤ witResult.confidence_score :=
  recommend_confidence_ge_min witEngine "headache" "" "" 1 0 [witResult]
    wit_recommend_eq witResult (List.mem_singleton.mpr rfl)

/-- C2: the returned sequence is sorted by `confidence_score` descending
with ties ordered by ascending `allergy_risk`; the underlying ranking is
sorted by the full order `CandLE`, whose last tie-break is the catalog
position, those positions are pairwise distinct and point back into the
catalog — so remaining ties preserve catalog insertion order (the sort is
stable). -/
theorem recommend_sorted_stable (E : Engine) (s a r : String) (k : ℤ)
    (mc : ℚ) (res : List ScoredCandidate)
    (h : E.recommend s a r k mc = .ok res) :
    res.Pairwise (fun x y => y.confidence_score < x.confidence_score ∨
        (x.confidence_score = y.confidence_score ∧
          x.allergy_risk ≤ y.allergy_risk)) ∧
      res = ((E.ranked s a mc).take k.toNat).map (E.annotate r) ∧
      (E.ranked s a mc).Pairwise CandLE ∧
      (E.ranked s a mc).Pairwise (fun x y => ¬ x.idx = y.idx) ∧
      ∀ c ∈ E.ranked s a mc, E.catalog.get? c.idx = some c.record := by
  have hres := recommend_ok_elim h
  refine ⟨?_, hres, ranked_sorted E s a mc, ranked_idx_distinct E s a mc,
    fun c hc => (mem_ranked hc).2.1⟩
  rw [hres, List.pairwise_map]
  refine List.Pairwise.sublist (List.take_sublist _ _) ?_
  refine (ranked_sorted E s a mc).imp ?_
  intro x y hxy
  rcases hxy with h1 | ⟨h1, h2⟩
  · exact Or.inl h1
  · refine Or.inr ⟨h1, ?_⟩
    rcases h2 with h2 | ⟨h2, _⟩
    · exact le_of_lt h2
    · exact le_of_eq h2

/-- Closed instance of C2's theorem at `witEngine`: its one-element result
is sorted and its ranking carries distinct catalog positions. -/
theorem recommend_sorted_stable_witness :
    [witResult].Pairwise (fun x y : ScoredCandidate =>
        y.confidence_score < x.confidence_score ∨
        (x.confidence_score = y.confidence_score ∧
          x.allergy_risk ≤ y.allergy_risk)) ∧
      [witResult] = ((witEngine.ranked "headache" "" 0).take (1 : ℤ).toNat).map
        (witEngine.annotate "") ∧
      (witEngine.ranked "headache" "" 0).Pairwise CandLE ∧
      (witEngine.ranked "headache" "" 0).Pairwise (fun x y => ¬ x.idx = y.idx) ∧
      ∀ c ∈ witEngine.ranked "headache" "" 0,
        witEngine.catalog.get? c.idx = some c.record :=
  recommend_sorted_stable witEngine "headache" "" "" 1 0 [witResult]
    wit_recommend_eq

/-- C3: a valid call never errors — it returns a sequence of length at
most `top_k`, and an empty catalog yields the empty sequence as a valid
non-error result. -/
theorem recommend_length_le_topk (E : Engine) (s a r : String) (k : ℤ)
    (mc : ℚ) (hs : isBlank s = false) (hk : 0 < k)
    (hmc : 0 ≤ mc ∧ mc ≤ 1) :
    ∃ res, E.recommend s a r k mc = .ok res ∧ res.length ≤ k.toNat ∧
      (E.catalog = [] → res = []) := by
  have h_eq : E.recommend s a r k mc =
      .ok (((E.ranked s a mc).take k.toNat).map (E.annotate r)) := by
    unfold Engine.recommend
    simp [hs, hk, hmc.1, hmc.2]
  refine ⟨_, h_eq, ?_, ?_⟩
  · rw [List.length_map, List.length_take]
    exact min_le_left _ _
  · intro hcat
    have hr : E.ranked s a mc = [] := by
      unfold Engine.ranked Engine.kept Engine.surviving Engine.scoreConf
        Engine.indexed
      rw [hcat]
      simp [withIdx, List.insertionSort]
    rw [hr]
    simp

/-- Closed instance of C3's theorem at `witEngine` with `top_k = 1`. -/
theorem recommend_length_le_topk_witness :
    ∃ res, witEngine.recommend "headache" "" "" 1 0 = .ok res ∧
      res.length ≤ (1 : ℤ).toNat ∧ (witEngine.catalog = [] → res = []) :=
  recommend_length_le_topk witEngine "headache" "" "" 1 0 (by decide)
    (by decide) (by norm_num)

/-- C4: with an empty allergy string a valid call succeeds, every returned
candidate reports `allergy_risk = 0`, and the call coincides with
`recommendNoAllergy`, the pipeline with no allergy filtering at all. -/
theorem recommend_empty_allergy (E : Engine) (s r : String) (k : ℤ)
    (mc : ℚ) (hs : isBlank s = false) (hk : 0 < k)
    (hmc : 0 ≤ mc ∧ mc ≤ 1) :
    ∃ res, E.recommend s "" r k mc = .ok res ∧
      (∀ x ∈ res, x.allergy_risk = 0) ∧
      E.recommend s "" r k mc = E.recommendNoAllergy s r k mc := by
  have hk' : E.kept s "" mc = E.surviving s mc := by
    unfold Engine.kept
    rw [if_pos (by decide)]
  have heq : E.recommend s "" r k mc = E.recommendNoAllergy s r k mc := by
    unfold Engine.recommend Engine.recommendNoAllergy Engine.ranked
    rw [hk']
  have h_eq : E.recommend s "" r k mc =
      .ok (((E.ranked s "" mc).take k.toNat).map (E.annotate r)) := by
    unfold Engine.recommend
    simp [hs, hk, hmc.1, hmc.2]
  refine ⟨_, h_eq, ?_, heq⟩
  intro x hx
  rcases List.mem_map.mp hx with ⟨c, hc, rfl⟩
  exact (mem_ranked (List.mem_of_mem_take hc)).2.2.1 (by decide)

/-- Closed instance of C4's theorem at `witEngine`. -/
theorem recommend_empty_allergy_witness :
    ∃ res, witEngine.recommend "headache" "" "" 1 0 = .ok res ∧
      (∀ x ∈ res, x.allergy_risk = 0) ∧
      witEngine.recommend "headache" "" "" 1 0 =
        witEngine.recommendNoAllergy "headache" "" 1 0 :=
  recommend_empty_allergy witEngine "headache" "" 1 0 (by decide) (by decide)
    (by norm_num)

/-- C5: `recommend` is deterministic — two runs with identical parameters
against the same engine (catalog, model, configuration unchanged) return
identical ordered sequences; the model is a function of its input and no
step draws randomness. -/
theorem recommend_deterministic (E : Engine) (s₁ a₁ r₁ : String) (k₁ : ℤ)
    (mc₁ : ℚ) (s₂ a₂ r₂ : String) (k₂ : ℤ) (mc₂ : ℚ)
    (hs : s₁ = s₂) (ha : a₁ = a₂) (hr : r₁ = r₂) (hk : k₁ = k₂)
    (hmc : mc₁ = mc₂) :
    E.recommend s₁ a₁ r₁ k₁ mc₁ = E.recommend s₂ a₂ r₂ k₂ mc₂ := by
  rw [hs, ha, hr, hk, hmc]

/-- Closed instance of C5's theorem at `witEngine`. -/
theorem recommend_deterministic_witness :
    witEngine.recommend "headache" "" "" 1 0 =
      witEngine.recommend "headache" "" "" 1 0 :=
  recommend_deterministic witEngine "headache" "" "" 1 0 "headache" "" "" 1 0
    rfl rfl rfl rfl rfl

/-- C6: `recommend` returns `InvalidInput` (and hence no partial result)
exactly when a parameter is bad — blank symptom text, non-positive
`top_k`, or `min_confidence` outside `[0, 1]`; and `embed` errors with
`InvalidInput` exactly on blank text, otherwise returning the model's
vector rather than any substitute. -/
theorem recommend_invalid_input_iff (E : Engine) (s a r : String) (k : ℤ)
    (mc : ℚ) (t : String) :
    (E.recommend s a r k mc = .error .InvalidInput ↔
      isBlank s = true ∨ ¬ 0 < k ∨ ¬ (0 ≤ mc ∧ mc ≤ 1)) ∧
    (embed E.model t = .error .InvalidInput ↔ isBlank t = true) ∧
    (embed E.model t = .ok (E.model t) ↔ isBlank t = false) := by
  refine ⟨?_, ?_, ?_⟩
  · unfold Engine.recommend
    split_ifs with h1 h2 h3 <;> simp_all
  · unfold embed
    split_ifs with h1 <;> simp [h1]
  · unfold embed
    split_ifs with h1 <;> simp [h1]

/-- C8: cosine-similarity scoring is total — whenever either vector has
zero (squared) norm the similarity is `0`, never undefined, and
`score_all` produces a score for every indexed record. -/
theorem cosineSim_zero_norm_guard (sqrt : ℚ → ℚ) (a b qv : List ℚ)
    (index : List (MedicineRecord × List ℚ))
    (h : sqNorm a = 0 ∨ sqNorm b = 0) :
    cosineSim sqrt a b = 0 ∧
      (score_all sqrt qv index).length = index.length := by
  constructor
  · unfold cosineSim
    rw [if_pos h]
  · unfold score_all
    rw [List.length_map]

/-- Closed instance of C8's theorem: the zero vector against a unit
vector scores `0`, and `score_all` covers a one-record index. -/
theorem cosineSim_zero_norm_guard_witness :
    cosineSim (fun q => q) [0, 0] [1] = 0 ∧
      (score_all (fun q => q) [1] [(witRecord, [1])]).length =
        [(witRecord, [1])].length :=
  cosineSim_zero_norm_guard (fun q => q) [0, 0] [1] [1] [(witRecord, [1])]
    (Or.inl (by norm_num [sqNorm, dot]))

/-- C9: for a valid call with an empty or unrecognized `region_code`,
every returned candidate carries the `unknown` tri-state — availability is
never fabricated. -/
theorem recommend_unknown_region (E : Engine) (s a r : String) (k : ℤ)
    (mc : ℚ) (res : List ScoredCandidate)
    (h : E.recommend s a r k mc = .ok res)
    (hr : r = "" ∨ ¬ r ∈ E.knownRegions)
    (x : ScoredCandidate) (hx : x ∈ res) :
    x.available_in_region = .unknown := by
  rw [recommend_ok_elim h] at hx
  rcases List.mem_map.mp hx with ⟨c, hc, rfl⟩
  simp only [Engine.annotate]
  rw [if_pos hr]

/-- Closed instance of C9's theorem: `witEngine` called with the empty
region code reports `unknown` for its returned candidate. -/
theorem recommend_unknown_region_witness :
    witResult.available_in_region = Availability.unknown :=
  recommend_unknown_region witEngine "headache" "" "" 1 0 [witResult]
    wit_recommend_eq (Or.inl rfl) witResult (List.mem_singleton.mpr rfl)

theorem lookupEntry_cons_self (k : String) (e : CacheEntry) (c : Cache) :
    lookupEntry ((k, e) :: c) k = some e := by
  unfold lookupEntry
  rw [List.find?_cons_of_pos _ (by simp)]
  rfl

/-- C7: `get_or_compute` called twice in a row with no catalog or model
change returns equal vector pairs, the second call being a cache hit with
no model inference; and a non-inferring call only ever serves an entry
whose stored model identifier matches the active one, while an inferring
call returns vectors freshly computed by the active model. -/
theorem get_or_compute_round_trip (model : String → List ℚ)
    (model_id : String) (c : Cache) (r : MedicineRecord) :
    (let f1 := get_or_compute model model_id c r
     let f2 := get_or_compute model model_id f1.cache r
     (f2.condition_vector = f1.condition_vector ∧
        f2.side_effect_vector = f1.side_effect_vector ∧
        f2.inferred = false) ∧
      (f1.inferred = false →
        ∃ e, lookupEntry c (fingerprint model_id r) = some e ∧
          e.model_id = model_id ∧
          f1.condition_vector = e.condition_vector ∧
          f1.side_effect_vector = e.side_effect_vector) ∧
      (f1.inferred = true →
        f1.condition_vector = model r.medical_condition ∧
        f1.side_effect_vector = model r.side_effects)) := by
  cases hl : lookupEntry c (fingerprint model_id r) with
  | some e =>
    by_cases hm : e.model_id = model_id
    · simp [get_or_compute, hl, hm]
    · simp [get_or_compute, hl, hm, lookupEntry_cons_self]
  | none =>
    simp [get_or_compute, hl, lookupEntry_cons_self]

end MedEngine

/-- C10: the client's `enrich` leaves every engine-provided field of a
result unchanged, and the presentation fields it fabricates are
deterministic functions of the position alone: `price` is `20 + 4.5·i`
dollars (held exactly as `2000 + 450·i` cents) formatted to two decimals,
`reviews` is `100 + 17·i`, and `prescription` is `true` for every record,
independent of any engine data. -/
theorem enrich_frame_and_fabrication (med : Client.EngineResult) (i : ℕ) :
    ((Client.enrich med i).drug_name = med.drug_name ∧
      (Client.enrich med i).medical_condition = med.medical_condition ∧
      (Client.enrich med i).side_effects = med.side_effects ∧
      (Client.enrich med i).confidence_score = med.confidence_score ∧
      (Client.enrich med i).allergy_risk = med.allergy_risk ∧
      (Client.enrich med i).available_in_region = med.available_in_region) ∧
    ((Client.enrich med i).price = Client.toFixed2 (2000 + 450 * i) ∧
      ((2000 + 450 * i : ℚ) = (20 + (9 / 2) * i) * 100) ∧
      (Client.enrich med i).reviews = 100 + 17 * i ∧
      (Client.enrich med i).prescription = true) := by
  refine ⟨⟨rfl, rfl, rfl, rfl, rfl, rfl⟩, rfl, ?_, rfl, rfl⟩
  ring

